import Mathlib

/-!
Verification of the image-to-PDF pipeline in src/app/page.tsx.

The program lets a user pick image files and generates one PDF with one
page per image.  The numeric work of the source (dimension arithmetic of
resizeImage, the watermark font-size formula of addWatermark, the
filename stripping of removeFileExtension, and the page layout and
progress reporting of handleGeneratePDF) is embedded here over exact
rationals; JavaScript numbers are modelled as rationals and pixel
buffers are abstracted to their dimensions.  External collaborators are
abstracted: an entry either decodes to pixel dimensions or fails
(field decoded of ImageFile), the pdf-lib text measurer
font.widthOfTextAtSize is an arbitrary function parameter, and the
final pdfDoc.save step is a boolean success flag.
-/

namespace ImagesToPDF

/-- Default maxWidth parameter of resizeImage in src/app/page.tsx. -/
def maxWidth : ℚ := 1600

/-- Default maxHeight parameter of resizeImage in src/app/page.tsx. -/
def maxHeight : ℚ := 1200

/-- The fixed watermark string passed to addWatermark by handleGeneratePDF. -/
def watermarkText : String := "Cleide Fotos"

/-- Pixel dimensions of a decoded raster image. -/
structure Dims where
  width : ℚ
  height : ℚ
deriving Repr, DecidableEq

/-- Dimension computation of resizeImage (src/app/page.tsx lines 41 to 68):
if width > maxWidth or height > maxHeight, both axes are multiplied by
ratio = min (maxWidth / width) (maxHeight / height); otherwise the
dimensions are unchanged. -/
def resizeImage (d : Dims) : Dims :=
  if d.width > maxWidth ∨ d.height > maxHeight then
    let ratio := min (maxWidth / d.width) (maxHeight / d.height)
    { width := d.width * ratio, height := d.height * ratio }
  else
    d

/-- Result of the watermark compositing step: same canvas dimensions as the
input image, plus the computed font size and the centred text placement. -/
structure WatermarkedImage where
  width : ℚ
  height : ℚ
  fontSize : ℤ
  text : String
  textX : ℚ
  textY : ℚ
deriving Repr, DecidableEq

/-- The addWatermark step (src/app/page.tsx lines 71 to 104): the canvas keeps
the image dimensions, fontSize = Math.floor ((img.width / text.length) * 1.6),
and the text is drawn at the centre of the canvas. -/
def addWatermark (d : Dims) (text : String) : WatermarkedImage :=
  { width := d.width
    height := d.height
    fontSize := ⌊(d.width / (text.length : ℚ)) * 1.6⌋
    text := text
    textX := d.width / 2
    textY := d.height / 2 }

/-- Index of the last occurrence of a character in a list, as in the
JavaScript String.lastIndexOf, with none for the -1 case. -/
def lastIndexOf (c : Char) : List Char → Option ℕ
  | [] => none
  | x :: xs =>
    match lastIndexOf c xs with
    | some i => some (i + 1)
    | none => if x = c then some 0 else none

/-- removeFileExtension (src/app/page.tsx lines 107 to 111): if the filename
has no dot it is returned unchanged, otherwise it is cut just before the
last dot. -/
def removeFileExtension (filename : String) : String :=
  match lastIndexOf '.' filename.data with
  | none => filename
  | some i => String.mk (filename.data.take i)

/-- One user-selected file: its name and the outcome of decoding its bytes.
decoded = none models an entry whose processing fails (unreadable file or
undecodable image data); decoded = some d models a successful decode to an
image of dimensions d. -/
structure ImageFile where
  name : String
  decoded : Option Dims
deriving Repr, DecidableEq

/-- One page of the output document, as assembled inside the per-file loop of
handleGeneratePDF (src/app/page.tsx lines 150 to 171). -/
structure Page where
  width : ℚ
  height : ℚ
  imageX : ℚ
  imageY : ℚ
  imageWidth : ℚ
  imageHeight : ℚ
  title : String
  titleSize : ℚ
  titleX : ℚ
  titleY : ℚ
  titleColor : ℚ × ℚ × ℚ
deriving Repr, DecidableEq

/-- Abstraction of font.widthOfTextAtSize of pdf-lib: measured width of a
string rendered at a font size. -/
def Measure : Type := String → ℚ → ℚ

/-- Page assembly for one processed image (src/app/page.tsx lines 150 to 171):
page size is (imageWidth + 100, imageHeight + 150), the image is drawn at
(50, 100) at its native size, and the title (the filename without its
extension) is drawn at size 28, black, at y = 50, horizontally centred
using its measured width. -/
def mkPage (measure : Measure) (img : WatermarkedImage) (origName : String) : Page :=
  let width := img.width
  let height := img.height
  let pageWidth := width + 100
  let pageHeight := height + 150
  let fileName := removeFileExtension origName
  let titleFontSize : ℚ := 28
  let titleWidth := measure fileName titleFontSize
  { width := pageWidth
    height := pageHeight
    imageX := 50
    imageY := 100
    imageWidth := width
    imageHeight := height
    title := fileName
    titleSize := titleFontSize
    titleX := (pageWidth - titleWidth) / 2
    titleY := 50
    titleColor := (0, 0, 0) }

/-- Processing of one entry inside the loop of handleGeneratePDF: read and
decode the file, resize it, watermark it, and assemble its page.  Returns
none when the entry cannot be decoded, modelling the rejection that the
try/catch of handleGeneratePDF turns into an abort of the whole run. -/
def processFile (measure : Measure) (f : ImageFile) : Option Page :=
  match f.decoded with
  | none => none
  | some d => some (mkPage measure (addWatermark (resizeImage d) watermarkText) f.name)

/-- The per-file loop of handleGeneratePDF (src/app/page.tsx lines 127 to
172), over the remaining files, with i the index of the next file and total
the length of the captured file list.  Yields the list of progress values
reported by setProgress inside the loop, in order, and the accumulated pages
(none as soon as one entry fails, in which case no later entry is touched). -/
def runLoop (measure : Measure) (total : ℕ) : List ImageFile → ℕ → List ℚ × Option (List Page)
  | [], _ => ([], some [])
  | f :: rest, i =>
    let p : ℚ := ((i : ℚ) / (total : ℚ)) * 90
    match processFile measure f with
    | none => ([p], none)
    | some page =>
      let r := runLoop measure total rest (i + 1)
      (p :: r.1, Option.map (fun ps => page :: ps) r.2)

/-- The component state read and written by handleGeneratePDF. -/
structure UIState where
  files : List ImageFile
  isGenerating : Bool
  progress : ℚ
deriving Repr, DecidableEq

/-- Observable outcome of one handleGeneratePDF invocation: the state when it
returns, every value passed to setProgress in order, the serialized document
(none unless the run reached a successful save), and whether the download of
images.pdf was triggered. -/
structure RunOutcome where
  finalState : UIState
  progressTrace : List ℚ
  document : Option (List Page)
  downloaded : Bool
deriving Repr, DecidableEq

/-- handleGeneratePDF (src/app/page.tsx lines 113 to 193).  With an empty
file list it returns at once, before touching any state.  Otherwise it
reports progress 0, runs the loop over the file list captured at invocation
time, and on success saves the document (saveOk abstracts the pdfDoc.save
step), reports progress 100 and triggers the download; on any failure the
catch and finally blocks leave no document and no download and clear the
generating flag. -/
def handleGeneratePDF (measure : Measure) (saveOk : Bool) (s : UIState) : RunOutcome :=
  if s.files.length = 0 then
    { finalState := s, progressTrace := [], document := none, downloaded := false }
  else
    let r := runLoop measure s.files.length s.files 0
    match r.2 with
    | none =>
      { finalState := { files := s.files, isGenerating := false,
                        progress := (0 :: r.1).getLastD 0 }
        progressTrace := 0 :: r.1
        document := none
        downloaded := false }
    | some pages =>
      if saveOk then
        { finalState := { files := s.files, isGenerating := false, progress := 100 }
          progressTrace := (0 :: r.1) ++ [100]
          document := some pages
          downloaded := true }
      else
        { finalState := { files := s.files, isGenerating := false,
                          progress := (0 :: r.1).getLastD 0 }
          progressTrace := 0 :: r.1
          document := none
          downloaded := false }

theorem lastIndexOf_of_not_mem (c : Char) (l : List Char) (h : c ∉ l) :
    lastIndexOf c l = none := by
  induction l with
  | nil => rfl
  | cons x xs ih =>
    simp only [List.mem_cons, not_or] at h
    simp only [lastIndexOf, ih h.2]
    rw [if_neg]
    exact fun e => h.1 e.symm

theorem lastIndexOf_append_dot (a b : List Char) (hb : '.' ∉ b) :
    lastIndexOf '.' (a ++ '.' :: b) = some a.length := by
  induction a with
  | nil =>
    simp only [List.nil_append, lastIndexOf, lastIndexOf_of_not_mem '.' b hb,
      List.length_nil]
    simp
  | cons x xs ih =>
    simp only [List.cons_append, lastIndexOf, List.append_eq, ih, List.length_cons]

/-- Claim C2: resizing leaves an image of width at most 1600 and height at
most 1200 unchanged; otherwise both axes are multiplied by
ratio = min (1600 / origW) (1200 / origH), so the output fits within
1600 by 1200 and keeps the original aspect ratio exactly. -/
theorem resizeImage_bounds_and_aspect (d : Dims) (hw : 0 < d.width) (hh : 0 < d.height) :
    (d.width ≤ 1600 ∧ d.height ≤ 1200 → resizeImage d = d) ∧
    (¬ (d.width ≤ 1600 ∧ d.height ≤ 1200) →
      (resizeImage d).width = d.width * min (1600 / d.width) (1200 / d.height) ∧
      (resizeImage d).height = d.height * min (1600 / d.width) (1200 / d.height) ∧
      (resizeImage d).width ≤ 1600 ∧
      (resizeImage d).height ≤ 1200 ∧
      (resizeImage d).width / (resizeImage d).height = d.width / d.height) := by
  constructor
  · rintro ⟨h1, h2⟩
    simp only [resizeImage, maxWidth, maxHeight]
    rw [if_neg]
    push_neg
    exact ⟨h1, h2⟩
  · intro h
    have hcond : d.width > maxWidth ∨ d.height > maxHeight := by
      simp only [maxWidth, maxHeight]
      by_contra hc
      push_neg at hc
      exact h ⟨hc.1, hc.2⟩
    have hr : (0:ℚ) < min (1600 / d.width) (1200 / d.height) :=
      lt_min (div_pos (by norm_num) hw) (div_pos (by norm_num) hh)
    have heq : resizeImage d =
        { width := d.width * min (1600 / d.width) (1200 / d.height)
          height := d.height * min (1600 / d.width) (1200 / d.height) } := by
      simp only [resizeImage]
      rw [if_pos hcond]
      simp [maxWidth, maxHeight]
    rw [heq]
    refine ⟨rfl, rfl, ?_, ?_, ?_⟩
    · calc d.width * min (1600 / d.width) (1200 / d.height)
          ≤ d.width * (1600 / d.width) :=
            mul_le_mul_of_nonneg_left (min_le_left _ _) hw.le
        _ = 1600 := by field_simp
    · calc d.height * min (1600 / d.width) (1200 / d.height)
          ≤ d.height * (1200 / d.height) :=
            mul_le_mul_of_nonneg_left (min_le_right _ _) hh.le
        _ = 1200 := by field_simp
    · rw [mul_div_mul_comm, div_self hr.ne', mul_one]

theorem resizeImage_bounds_and_aspect_witness :
    (0:ℚ) < 3200 ∧ (0:ℚ) < 1800 ∧
    (resizeImage ⟨3200, 1800⟩).width ≤ 1600 ∧
    (resizeImage ⟨3200, 1800⟩).width / (resizeImage ⟨3200, 1800⟩).height
      = 3200 / 1800 := by
  have h := resizeImage_bounds_and_aspect ⟨3200, 1800⟩ (by norm_num) (by norm_num)
  have h2 := h.2 (by norm_num)
  exact ⟨by norm_num, by norm_num, h2.2.2.1, h2.2.2.2.2⟩

/-- Claim C5: for a non-empty watermark string T and an image of pixel width
W, the computed watermark font size is floor ((W / length T) * 1.6); stated
with the floor characterised by the two bracketing inequalities. -/
theorem watermark_font_size_formula (T : String) (_hT : T ≠ "") (W H : ℚ) :
    (addWatermark ⟨W, H⟩ T).fontSize = ⌊(W / (T.length : ℚ)) * 1.6⌋ ∧
    ((addWatermark ⟨W, H⟩ T).fontSize : ℚ) ≤ (W / (T.length : ℚ)) * 1.6 ∧
    (W / (T.length : ℚ)) * 1.6 < (addWatermark ⟨W, H⟩ T).fontSize + 1 := by
  refine ⟨rfl, ?_, ?_⟩
  · exact Int.floor_le _
  · exact Int.lt_floor_add_one _

theorem watermark_font_size_formula_witness :
    watermarkText ≠ "" ∧
    (addWatermark ⟨100, 50⟩ watermarkText).fontSize = 13 := by
  have h := watermark_font_size_formula watermarkText (by decide) 100 50
  refine ⟨by decide, ?_⟩
  rw [h.1]
  norm_num [show (watermarkText.length : ℚ) = 12 from rfl]

/-- Claim C6: the page label is the filename with everything from the last
dot onwards removed; a filename without a dot is kept whole, and only the
final extension is stripped from a name with several dots. -/
theorem removeFileExtension_spec (a b : List Char) (s : String)
    (hb : '.' ∉ b) (hs : '.' ∉ s.data) :
    removeFileExtension (String.mk (a ++ '.' :: b)) = String.mk a ∧
    removeFileExtension s = s := by
  constructor
  · simp only [removeFileExtension, lastIndexOf_append_dot a b hb]
    congr 1
    exact List.take_left a ('.' :: b)
  · simp only [removeFileExtension, lastIndexOf_of_not_mem '.' s.data hs]

theorem removeFileExtension_spec_witness :
    removeFileExtension "archive.tar.gz" = "archive.tar" ∧
    removeFileExtension "photo.jpg" = "photo" ∧
    removeFileExtension "noext" = "noext" := by
  have h1 := removeFileExtension_spec "archive.tar".data "gz".data "noext"
    (by decide) (by decide)
  have h2 := removeFileExtension_spec "photo".data "jpg".data "noext"
    (by decide) (by decide)
  have e1 : String.mk ("archive.tar".data ++ '.' :: "gz".data) = "archive.tar.gz" := by
    decide
  have e2 : String.mk ("photo".data ++ '.' :: "jpg".data) = "photo.jpg" := by decide
  rw [e1] at h1
  rw [e2] at h2
  exact ⟨h1.1, h2.1, h1.2⟩

/-- Claim C10: for a filename whose only dot is its first character, the
derived label is the empty string, and so the page title drawn for that
entry is empty text. -/
theorem dotfile_label_empty (rest : List Char) (h : '.' ∉ rest) :
    removeFileExtension (String.mk ('.' :: rest)) = "" ∧
    ∀ (measure : Measure) (img : WatermarkedImage),
      (mkPage measure img (String.mk ('.' :: rest))).title = "" := by
  have hidx : lastIndexOf '.' ('.' :: rest) = some 0 := by
    simp [lastIndexOf, lastIndexOf_of_not_mem '.' rest h]
  have h1 : removeFileExtension (String.mk ('.' :: rest)) = "" := by
    simp [removeFileExtension, hidx]
  exact ⟨h1, fun measure img => by simp [mkPage, h1]⟩

theorem runLoop_some (m : Measure) (total : ℕ) :
    ∀ (fs : List ImageFile) (i : ℕ) (tr : List ℚ) (ps : List Page),
      runLoop m total fs i = (tr, some ps) →
      ps.length = fs.length ∧
      ∀ j, ps.get? j = (fs.get? j).bind (processFile m) := by
  intro fs
  induction fs with
  | nil =>
    intro i tr ps h
    simp only [runLoop, Prod.mk.injEq] at h
    obtain ⟨-, h2⟩ := h
    obtain rfl : ps = [] := by simpa using h2.symm
    exact ⟨rfl, fun j => by simp⟩
  | cons f rest ih =>
    intro i tr ps h
    simp only [runLoop] at h
    cases hpf : processFile m f with
    | none => rw [hpf] at h; simp at h
    | some page =>
      rw [hpf] at h
      simp only [Prod.mk.injEq] at h
      obtain ⟨-, h2⟩ := h
      cases hr2 : (runLoop m total rest (i + 1)).2 with
      | none => rw [hr2] at h2; simp at h2
      | some ps0 =>
        rw [hr2] at h2
        simp only [Option.map_some', Option.some.injEq] at h2
        obtain rfl : ps = page :: ps0 := h2.symm
        have hrec := ih (i + 1) (runLoop m total rest (i + 1)).1 ps0 (by rw [← hr2])
        refine ⟨by simp [hrec.1], fun j => ?_⟩
        cases j with
        | zero => simp [hpf]
        | succ j => simpa using hrec.2 j

theorem runLoop_success (m : Measure) (total : ℕ) :
    ∀ (fs : List ImageFile) (i : ℕ),
      (∀ f ∈ fs, (processFile m f).isSome) →
      (runLoop m total fs i).1
        = (List.range' i fs.length).map (fun k : ℕ => ((k : ℚ) / (total : ℚ)) * 90) ∧
      (runLoop m total fs i).2.isSome := by
  intro fs
  induction fs with
  | nil => intro i _; exact ⟨rfl, rfl⟩
  | cons f rest ih =>
    intro i h
    have hf : (processFile m f).isSome := h f (List.mem_cons_self f rest)
    obtain ⟨page, hpage⟩ := Option.isSome_iff_exists.mp hf
    have hrest := ih (i + 1) (fun g hg => h g (List.mem_cons_of_mem f hg))
    constructor
    · simp only [runLoop, hpage, List.length_cons, List.range'_succ, List.map_cons]
      exact congrArg _ hrest.1
    · simp only [runLoop, hpage]
      simpa using hrest.2

theorem runLoop_fail (m : Measure) (total : ℕ) :
    ∀ (j : ℕ) (fs : List ImageFile) (i : ℕ) (fj : ImageFile),
      (∀ k, k < j → ∀ g, fs.get? k = some g → (processFile m g).isSome) →
      fs.get? j = some fj →
      processFile m fj = none →
      (runLoop m total fs i).1
        = (List.range' i (j + 1)).map (fun k : ℕ => ((k : ℚ) / (total : ℚ)) * 90) ∧
      (runLoop m total fs i).2 = none := by
  intro j
  induction j with
  | zero =>
    intro fs i fj hok hj hfail
    cases fs with
    | nil => simp at hj
    | cons f rest =>
      obtain rfl : f = fj := by simpa using hj
      constructor
      · simp [runLoop, hfail, List.range'_succ]
      · simp [runLoop, hfail]
  | succ j ih =>
    intro fs i fj hok hj hfail
    cases fs with
    | nil => simp at hj
    | cons f rest =>
      have hf : (processFile m f).isSome := hok 0 (Nat.succ_pos j) f rfl
      obtain ⟨page, hpage⟩ := Option.isSome_iff_exists.mp hf
      have hrec := ih rest (i + 1) fj
        (fun k hk g hg => hok (k + 1) (Nat.succ_lt_succ hk) g hg) hj hfail
      constructor
      · simp only [runLoop, hpage, List.range'_succ, List.map_cons]
        exact congrArg _ hrec.1
      · simp only [runLoop, hpage, hrec.2, Option.map_none']

theorem handleGeneratePDF_eq_of_runLoop_some (m : Measure) (s : UIState)
    (hlen : ¬ s.files.length = 0) (pages : List Page)
    (hr : (runLoop m s.files.length s.files 0).2 = some pages) :
    handleGeneratePDF m true s =
      { finalState := { files := s.files, isGenerating := false, progress := 100 }
        progressTrace := (0 :: (runLoop m s.files.length s.files 0).1) ++ [100]
        document := some pages
        downloaded := true } := by
  simp only [handleGeneratePDF, if_neg hlen]
  rw [hr]
  simp

theorem handleGeneratePDF_eq_some_nosave (m : Measure) (s : UIState)
    (hlen : ¬ s.files.length = 0) (pages : List Page)
    (hr : (runLoop m s.files.length s.files 0).2 = some pages) :
    handleGeneratePDF m false s =
      { finalState := { files := s.files, isGenerating := false,
                        progress := (0 :: (runLoop m s.files.length s.files 0).1).getLastD 0 }
        progressTrace := 0 :: (runLoop m s.files.length s.files 0).1
        document := none
        downloaded := false } := by
  simp only [handleGeneratePDF, if_neg hlen]
  rw [hr]
  simp

theorem handleGeneratePDF_eq_of_runLoop_none (m : Measure) (saveOk : Bool) (s : UIState)
    (hlen : ¬ s.files.length = 0)
    (hr : (runLoop m s.files.length s.files 0).2 = none) :
    handleGeneratePDF m saveOk s =
      { finalState := { files := s.files, isGenerating := false,
                        progress := (0 :: (runLoop m s.files.length s.files 0).1).getLastD 0 }
        progressTrace := 0 :: (runLoop m s.files.length s.files 0).1
        document := none
        downloaded := false } := by
  simp only [handleGeneratePDF, if_neg hlen]
  rw [hr]

/-- Claim C1: a successful run over the entry list captured at invocation
time yields a document with exactly one page per entry, page i being the
page assembled from entry i, so append order equals selection order.  The
run is a function of the captured list alone, so entries added or removed
afterwards cannot affect it. -/
theorem pdf_page_count_and_order (m : Measure) (saveOk : Bool) (s : UIState)
    (hne : s.files ≠ [])
    (hdoc : (handleGeneratePDF m saveOk s).document.isSome) :
    ((handleGeneratePDF m saveOk s).document.getD []).length = s.files.length ∧
    ∀ i, ((handleGeneratePDF m saveOk s).document.getD []).get? i
        = (s.files.get? i).bind (processFile m) := by
  have hlen : ¬ s.files.length = 0 := by simpa [List.length_eq_zero] using hne
  cases saveOk with
  | false =>
    exfalso
    cases hr : (runLoop m s.files.length s.files 0).2 with
    | none =>
      rw [handleGeneratePDF_eq_of_runLoop_none m false s hlen hr] at hdoc
      simp at hdoc
    | some pages =>
      rw [handleGeneratePDF_eq_some_nosave m s hlen pages hr] at hdoc
      simp at hdoc
  | true =>
    cases hr : (runLoop m s.files.length s.files 0).2 with
    | none =>
      exfalso
      rw [handleGeneratePDF_eq_of_runLoop_none m true s hlen hr] at hdoc
      simp at hdoc
    | some pages =>
      rw [handleGeneratePDF_eq_of_runLoop_some m s hlen pages hr]
      have hrun := runLoop_some m s.files.length s.files 0
        (runLoop m s.files.length s.files 0).1 pages (by rw [← hr])
      simpa using hrun

theorem trace_chain_le (n : ℕ) (hn : 0 < n) :
    List.Chain' (· ≤ ·)
      (0 :: (List.range n).map (fun i : ℕ => ((i : ℚ) / (n : ℚ)) * 90) ++ [100]) := by
  have hn' : (0:ℚ) < n := by exact_mod_cast hn
  apply List.Pairwise.chain'
  refine List.pairwise_cons.mpr ⟨?_, ?_⟩
  · intro x hx
    rcases List.mem_append.mp hx with hx | hx
    · obtain ⟨i, hi, rfl⟩ := List.mem_map.mp hx
      positivity
    · rw [List.mem_singleton] at hx
      rw [hx]
      norm_num
  · refine List.pairwise_append.mpr ⟨?_, ?_, ?_⟩
    · rw [List.pairwise_map]
      refine (List.pairwise_lt_range n).imp ?_
      intro a b hab
      have hab' : (a:ℚ) ≤ (b:ℚ) := by exact_mod_cast hab.le
      exact mul_le_mul_of_nonneg_right ((div_le_div_iff_of_pos_right hn').mpr hab')
        (by norm_num)
    · simp
    · intro x hx y hy
      rw [List.mem_singleton] at hy
      obtain ⟨i, hi, rfl⟩ := List.mem_map.mp hx
      rw [hy]
      have hi' : (i:ℚ) ≤ (n:ℚ) := by exact_mod_cast (List.mem_range.mp hi).le
      calc ((i:ℚ) / n) * 90 ≤ 1 * 90 :=
            mul_le_mul_of_nonneg_right ((div_le_one hn').mpr hi') (by norm_num)
        _ ≤ 100 := by norm_num

/-- Claim C3: on a fully successful run over n entries the reported progress
values are 0 at the start, then (i / n) * 90 before entry i for each i below
n, then 100 after serialization; for 4 entries this is the sequence 0, then
0, 22.5, 45, 67.5 at the entry starts, then 100, and the whole sequence is
non-decreasing. -/
theorem progress_trace_spec (m : Measure) (s : UIState)
    (hne : s.files ≠ [])
    (hok : ∀ f ∈ s.files, (processFile m f).isSome) :
    (handleGeneratePDF m true s).progressTrace
      = 0 :: (List.range s.files.length).map
          (fun i : ℕ => ((i : ℚ) / (s.files.length : ℚ)) * 90) ++ [100] ∧
    (s.files.length = 4 →
      (handleGeneratePDF m true s).progressTrace = [0, 0, 45/2, 45, 135/2, 100]) ∧
    List.Chain' (· ≤ ·) ((handleGeneratePDF m true s).progressTrace) := by
  have hlen : ¬ s.files.length = 0 := by simpa [List.length_eq_zero] using hne
  have hrun := runLoop_success m s.files.length s.files 0 hok
  obtain ⟨pages, hr⟩ := Option.isSome_iff_exists.mp hrun.2
  have htrace : (handleGeneratePDF m true s).progressTrace
      = 0 :: (List.range s.files.length).map
          (fun i : ℕ => ((i : ℚ) / (s.files.length : ℚ)) * 90) ++ [100] := by
    rw [handleGeneratePDF_eq_of_runLoop_some m s hlen pages hr]
    show (0 :: (runLoop m s.files.length s.files 0).1) ++ [100] = _
    rw [hrun.1, List.range_eq_range']
  refine ⟨htrace, ?_, ?_⟩
  · intro h4
    rw [htrace, h4]
    rw [show List.range 4 = [0, 1, 2, 3] from rfl]
    simp only [List.map_cons, List.map_nil, List.cons_append, List.nil_append]
    norm_num
  · rw [htrace]
    exact trace_chain_le s.files.length (Nat.pos_of_ne_zero hlen)

/-- Claim C4: if some entry fails while every earlier entry succeeds, the
run aborts there: progress is reported only for entries up to the failing
one, no document is produced and no download happens. -/
theorem abort_on_first_error (m : Measure) (saveOk : Bool) (s : UIState)
    (j : ℕ) (fj : ImageFile)
    (hfirst : ∀ k, k < j → ∀ g, s.files.get? k = some g → (processFile m g).isSome)
    (hj : s.files.get? j = some fj)
    (hfail : processFile m fj = none) :
    (handleGeneratePDF m saveOk s).document = none ∧
    (handleGeneratePDF m saveOk s).downloaded = false ∧
    (handleGeneratePDF m saveOk s).progressTrace
      = 0 :: (List.range (j + 1)).map
          (fun k : ℕ => ((k : ℚ) / (s.files.length : ℚ)) * 90) := by
  have hlen : ¬ s.files.length = 0 := by
    intro h0
    rw [List.length_eq_zero] at h0
    rw [h0] at hj
    simp at hj
  have hrun := runLoop_fail m s.files.length j s.files 0 fj hfirst hj hfail
  rw [handleGeneratePDF_eq_of_runLoop_none m saveOk s hlen hrun.2]
  refine ⟨rfl, rfl, ?_⟩
  show 0 :: (runLoop m s.files.length s.files 0).1 = _
  rw [hrun.1, List.range_eq_range']

/-- Claim C7: the page assembled for a processed image of post-normalization
dimensions (w, h) has canvas (w + 100, h + 150), carries the image at
(50, 100) at its native size, and draws the title at size 28, solid black,
at y = 50, with x = (pageWidth - measuredTextWidth) / 2. -/
theorem page_layout_spec (m : Measure) (f : ImageFile) (d : Dims) (page : Page)
    (hd : f.decoded = some d) (hp : processFile m f = some page) :
    page.width = (resizeImage d).width + 100 ∧
    page.height = (resizeImage d).height + 150 ∧
    page.imageX = 50 ∧
    page.imageY = 100 ∧
    page.imageWidth = (resizeImage d).width ∧
    page.imageHeight = (resizeImage d).height ∧
    page.title = removeFileExtension f.name ∧
    page.titleSize = 28 ∧
    page.titleX = (page.width - m page.title 28) / 2 ∧
    page.titleY = 50 ∧
    page.titleColor = (0, 0, 0) := by
  have hpage : page = mkPage m (addWatermark (resizeImage d) watermarkText) f.name := by
    simp only [processFile, hd] at hp
    exact (Option.some.inj hp).symm
  subst hpage
  exact ⟨rfl, rfl, rfl, rfl, rfl, rfl, rfl, rfl, rfl, rfl, rfl⟩

theorem handleGeneratePDF_depends_only_on_files (m : Measure) (saveOk : Bool)
    (s t : UIState) (h : s.files = t.files) (hne : ¬ s.files.length = 0) :
    handleGeneratePDF m saveOk s = handleGeneratePDF m saveOk t := by
  have hne2 : ¬ t.files.length = 0 := by rw [← h]; exact hne
  simp only [handleGeneratePDF, h]
  rw [if_neg hne2, if_neg hne2]

theorem handleGeneratePDF_congr_files (m : Measure) (saveOk : Bool)
    (s t : UIState) (h : s.files = t.files) :
    (handleGeneratePDF m saveOk s).document = (handleGeneratePDF m saveOk t).document ∧
    (handleGeneratePDF m saveOk s).progressTrace
      = (handleGeneratePDF m saveOk t).progressTrace ∧
    (handleGeneratePDF m saveOk s).downloaded
      = (handleGeneratePDF m saveOk t).downloaded := by
  by_cases h0 : s.files.length = 0
  · have h02 : t.files.length = 0 := by rw [← h]; exact h0
    simp [handleGeneratePDF, h0, h02]
  · have e := handleGeneratePDF_depends_only_on_files m saveOk s t h h0
    exact ⟨by rw [e], by rw [e], by rw [e]⟩

theorem handleGeneratePDF_finalState_files (m : Measure) (saveOk : Bool) (s : UIState) :
    (handleGeneratePDF m saveOk s).finalState.files = s.files := by
  by_cases h0 : s.files.length = 0
  · simp [handleGeneratePDF, h0]
  · simp only [handleGeneratePDF, if_neg h0]
    cases hr : (runLoop m s.files.length s.files 0).2 with
    | none => rfl
    | some pages =>
      cases saveOk with
      | false => rfl
      | true => rfl

/-- Claim C8: two invocations on states holding the identical ordered entry
list produce the same document (same page count, order and labels), the same
progress reports and the same download outcome; and re-running on the state
left behind by a run gives the same document again, so the pipeline keeps no
state across invocations. -/
theorem rerun_deterministic (m : Measure) (saveOk : Bool) (s t : UIState)
    (hfiles : s.files = t.files) :
    (handleGeneratePDF m saveOk s).document = (handleGeneratePDF m saveOk t).document ∧
    (handleGeneratePDF m saveOk s).progressTrace
      = (handleGeneratePDF m saveOk t).progressTrace ∧
    (handleGeneratePDF m saveOk s).downloaded
      = (handleGeneratePDF m saveOk t).downloaded ∧
    (handleGeneratePDF m saveOk ((handleGeneratePDF m saveOk s).finalState)).document
      = (handleGeneratePDF m saveOk s).document := by
  have h1 := handleGeneratePDF_congr_files m saveOk s t hfiles
  have h2 := handleGeneratePDF_congr_files m saveOk
    ((handleGeneratePDF m saveOk s).finalState) s
    (handleGeneratePDF_finalState_files m saveOk s)
  exact ⟨h1.1, h1.2.1, h1.2.2, h2.1⟩

/-- Claim C9: invoking the run with an empty entry list returns immediately:
the state (progress and the generating flag included) is untouched, no
progress is reported, no document is created and no download happens. -/
theorem empty_selection_noop (m : Measure) (saveOk : Bool) (s : UIState)
    (h : s.files = []) :
    handleGeneratePDF m saveOk s
      = { finalState := s, progressTrace := [], document := none,
          downloaded := false } ∧
    (handleGeneratePDF m saveOk s).finalState.progress = s.progress ∧
    (handleGeneratePDF m saveOk s).finalState.isGenerating = s.isGenerating ∧
    (handleGeneratePDF m saveOk s).document = none ∧
    (handleGeneratePDF m saveOk s).downloaded = false := by
  have h0 : s.files.length = 0 := by rw [h]; rfl
  have e : handleGeneratePDF m saveOk s
      = { finalState := s, progressTrace := [], document := none,
          downloaded := false } := by
    simp [handleGeneratePDF, h0]
  exact ⟨e, by rw [e], by rw [e], by rw [e], by rw [e]⟩

theorem dotfile_label_empty_witness :
    removeFileExtension ".env" = "" := by
  have h := dotfile_label_empty "env".data (by decide)
  have e : String.mk ('.' :: "env".data) = ".env" := by decide
  rw [e] at h
  exact h.1

theorem pdf_page_count_and_order_witness :
    ((⟨[⟨"a.jpg", some ⟨100, 50⟩⟩], false, 0⟩ : UIState).files ≠ []) ∧
    ((handleGeneratePDF (fun _ _ => 0) true
        ⟨[⟨"a.jpg", some ⟨100, 50⟩⟩], false, 0⟩).document.getD []).length
      = (⟨[⟨"a.jpg", some ⟨100, 50⟩⟩], false, 0⟩ : UIState).files.length := by
  have hne : (⟨[⟨"a.jpg", some ⟨100, 50⟩⟩], false, 0⟩ : UIState).files ≠ [] := by
    simp
  have hdoc : (handleGeneratePDF (fun _ _ => 0) true
      ⟨[⟨"a.jpg", some ⟨100, 50⟩⟩], false, 0⟩).document.isSome := by
    simp [handleGeneratePDF, runLoop, processFile]
  exact ⟨hne, (pdf_page_count_and_order (fun _ _ => 0) true _ hne hdoc).1⟩

theorem progress_trace_spec_witness :
    (handleGeneratePDF (fun _ _ => 0) true
        ⟨[⟨"a.jpg", some ⟨100, 50⟩⟩, ⟨"b.jpg", some ⟨100, 50⟩⟩,
          ⟨"c.jpg", some ⟨100, 50⟩⟩, ⟨"d.jpg", some ⟨100, 50⟩⟩],
          false, 0⟩).progressTrace
      = [0, 0, 45/2, 45, 135/2, 100] := by
  have hne : (⟨[⟨"a.jpg", some ⟨100, 50⟩⟩, ⟨"b.jpg", some ⟨100, 50⟩⟩,
      ⟨"c.jpg", some ⟨100, 50⟩⟩, ⟨"d.jpg", some ⟨100, 50⟩⟩],
      false, 0⟩ : UIState).files ≠ [] := by simp
  have hok : ∀ f ∈ (⟨[⟨"a.jpg", some ⟨100, 50⟩⟩, ⟨"b.jpg", some ⟨100, 50⟩⟩,
      ⟨"c.jpg", some ⟨100, 50⟩⟩, ⟨"d.jpg", some ⟨100, 50⟩⟩],
      false, 0⟩ : UIState).files, (processFile (fun _ _ => 0) f).isSome := by
    intro f hf
    simp only [List.mem_cons, List.not_mem_nil, or_false] at hf
    rcases hf with rfl | rfl | rfl | rfl <;> simp [processFile]
  exact (progress_trace_spec (fun _ _ => 0) _ hne hok).2.1 rfl

theorem abort_on_first_error_witness :
    (handleGeneratePDF (fun _ _ => 0) true
        ⟨[⟨"a.jpg", some ⟨100, 50⟩⟩, ⟨"bad.jpg", none⟩], false, 0⟩).document = none ∧
    (handleGeneratePDF (fun _ _ => 0) true
        ⟨[⟨"a.jpg", some ⟨100, 50⟩⟩, ⟨"bad.jpg", none⟩], false, 0⟩).downloaded
      = false := by
  have hfirst : ∀ k, k < 1 → ∀ g,
      (⟨[⟨"a.jpg", some ⟨100, 50⟩⟩, ⟨"bad.jpg", none⟩], false, 0⟩
        : UIState).files.get? k = some g →
      (processFile (fun _ _ => 0) g).isSome := by
    intro k hk g hg
    have hk0 : k = 0 := Nat.lt_one_iff.mp hk
    subst hk0
    obtain rfl : g = ⟨"a.jpg", some ⟨100, 50⟩⟩ := by simpa using hg.symm
    simp [processFile]
  have h := abort_on_first_error (fun _ _ => 0) true
    ⟨[⟨"a.jpg", some ⟨100, 50⟩⟩, ⟨"bad.jpg", none⟩], false, 0⟩ 1 ⟨"bad.jpg", none⟩
    hfirst rfl rfl
  exact ⟨h.1, h.2.1⟩

theorem page_layout_spec_witness :
    (⟨200, 200, 50, 100, 100, 50, "a", 28, 100, 50, (0, 0, 0)⟩ : Page).width
      = (resizeImage ⟨100, 50⟩).width + 100 ∧
    (⟨200, 200, 50, 100, 100, 50, "a", 28, 100, 50, (0, 0, 0)⟩ : Page).height
      = (resizeImage ⟨100, 50⟩).height + 150 := by
  have hp : processFile (fun _ _ => 0) ⟨"a.jpg", some ⟨100, 50⟩⟩
      = some ⟨200, 200, 50, 100, 100, 50, "a", 28, 100, 50, (0, 0, 0)⟩ := by
    simp only [processFile, Option.some.injEq]
    norm_num [mkPage, addWatermark, resizeImage, maxWidth, maxHeight, Page.mk.injEq,
      show removeFileExtension "a.jpg" = "a" from by decide]
  have h := page_layout_spec (fun _ _ => 0) ⟨"a.jpg", some ⟨100, 50⟩⟩ ⟨100, 50⟩
    ⟨200, 200, 50, 100, 100, 50, "a", 28, 100, 50, (0, 0, 0)⟩ rfl hp
  exact ⟨h.1, h.2.1⟩

theorem rerun_deterministic_witness :
    (handleGeneratePDF (fun _ _ => 0) true
        ⟨[⟨"a.jpg", some ⟨100, 50⟩⟩], false, 0⟩).document
      = (handleGeneratePDF (fun _ _ => 0) true
        ⟨[⟨"a.jpg", some ⟨100, 50⟩⟩], true, 55⟩).document :=
  (rerun_deterministic (fun _ _ => 0) true _ _ rfl).1

theorem empty_selection_noop_witness :
    handleGeneratePDF (fun _ _ => 0) true ⟨[], true, 37⟩
      = { finalState := ⟨[], true, 37⟩, progressTrace := [], document := none,
          downloaded := false } :=
  (empty_selection_noop (fun _ _ => 0) true ⟨[], true, 37⟩ rfl).1

end ImagesToPDF
